import Mathlib

/-!
Verification of the CPToolTutorial repository's single executable,
`util/cp_tutorial_example.cxx`, against its natural-language specification.

The program is glue code over an external framework (ROOT / xAOD / CP tools).
We embed it shallowly: every framework call's outcome is supplied by an
environment `Env`, and the program is a pure function producing an exit code
together with a trace of observable events (log lines, framework calls,
transient-store operations).  Framework internals that the repository does
not contain (the shallow-copy container, the calibration tool's mutation)
are modelled from the specification's own description of them; everything
else is translated directly from the C++ source.
-/

namespace CPTut

/-- Observable events of a run: log lines, framework call sites, and
transient-store operations, in program order. -/
inductive Ev where
  /-- the "No file name received!" error line (line 44) -/
  | errNoFile : Ev
  /-- the "Usage: ..." error line (line 45) -/
  | usageMsg : Ev
  /-- the "Opening file: %s" info line (line 55) -/
  | infoOpenFile : Ev
  /-- the TFile::Open call (line 56) -/
  | fileOpenCall : Ev
  /-- the "Number of events in the file" info line (line 62) -/
  | infoNumEvents (n : Nat) : Ev
  /-- the unchecked event.getEntry(entry) call (line 91) -/
  | getEntryCall (entry : Nat) : Ev
  /-- an event.retrieve call with the given store key (lines 95, 103) -/
  | retrieveCall (key : String) (entry : Nat) : Ev
  /-- the per-event progress line; soFar is the printed entry counter (lines 96-99) -/
  | progressLine (evtNum runNum soFar : Nat) : Ev
  /-- the "Number of muons" info line (line 106) -/
  | numMuonsMsg (n : Nat) : Ev
  /-- the muonCalibTool.applyCorrection call on muon idx (line 116) -/
  | calibCall (idx : Nat) : Ev
  /-- the muonSelectTool.accept call on muon idx, whose pt is pt (line 118) -/
  | acceptCall (idx : Nat) (pt : Int) : Ev
  /-- the muonEffTool.getEfficiencyScaleFactor call on muon idx (line 120) -/
  | effCall (idx : Nat) (pt : Int) : Ev
  /-- the "Muon %lu selected with weight %f" info line (line 122) -/
  | selectedMsg (idx : Nat) (w : Int) : Ev
  /-- one "Muon %lu old pt ... new pt ..." comparison line (lines 128-130) -/
  | compareMsg (idx : Nat) (oldPt newPt : Int) : Ev
  /-- a store.record call with the given key (lines 134-135) -/
  | recordCall (key : String) : Ev
  /-- the store.clear call (line 138); keys are the store's contents at that moment -/
  | clearStore (keys : List String) : Ev
  /-- the CHECK macro's "Failed to execute" error line (lines 30-31) -/
  | errFail (callText : String) : Ev
  /-- the "Application finished" info line (line 142) -/
  | finishedMsg : Ev
deriving DecidableEq, Repr

/-- Environment supplying the outcome of every external-framework call the
program makes.  Boolean fields are the success/failure results the C++ code
tests (directly or through the CHECK macro); function fields are indexed by
event entry number and, where needed, by muon index. -/
structure Env where
  /-- C argc, counting the program name -/
  argc : Nat
  /-- result of xAOD::Init(APP_NAME) (line 50) -/
  xaodInitOk : Bool
  /-- whether TFile::Open returned a non-null file (line 57) -/
  fileOpenOk : Bool
  /-- result of event.readFrom(file.get()) (line 61) -/
  readFromOk : Bool
  /-- event.getEntries(): number of events in the file (lines 62, 86) -/
  nEvents : Nat
  /-- result of muonCalibTool.initialize() (line 73) -/
  calibInitOk : Bool
  /-- result of muonSelectTool.setProperty("MuQuality", ...) (line 77) -/
  selPropOk : Bool
  /-- result of muonSelectTool.initialize() (line 78) -/
  selInitOk : Bool
  /-- result of muonEffTool.setProperty("WorkingPoint", ...) (line 82) -/
  effPropOk : Bool
  /-- result of muonEffTool.initialize() (line 83) -/
  effInitOk : Bool
  /-- status of event.getEntry(entry) (line 91); the C++ code discards it -/
  getEntryOk : Nat → Bool
  /-- result of event.retrieve(evtInfo, "EventInfo") at a given entry (line 95) -/
  evtInfoOk : Nat → Bool
  /-- evtInfo->eventNumber() at a given entry (line 99) -/
  eventNumber : Nat → Nat
  /-- evtInfo->runNumber() at a given entry (line 99) -/
  runNumber : Nat → Nat
  /-- result of event.retrieve(muons, "Muons") at a given entry (line 103) -/
  muonsOk : Nat → Bool
  /-- the pt fields of the muons of a given entry (the container's elements) -/
  muonPts : Nat → List Int
  /-- the fixed kinematic offset the calibration tool adds (modelled from the spec) -/
  calibOffset : Int
  /-- whether applyCorrection returns a code other than Error, per entry and muon (line 116) -/
  calibOk : Nat → Nat → Bool
  /-- the selection predicate muonSelectTool.accept, keyed on the muon's pt (line 118) -/
  accept : Int → Bool
  /-- whether getEfficiencyScaleFactor returns a code other than Error (line 120) -/
  effOk : Nat → Nat → Bool
  /-- the efficiency weight written into w, keyed on the muon's pt (line 120) -/
  effWeight : Int → Int
  /-- result of store.record(muonCopyPair.first, "MyMuons") (line 134) -/
  rec1Ok : Nat → Bool
  /-- result of store.record(muonCopyPair.second, "MyMuonsAux.") (line 135) -/
  rec2Ok : Nat → Bool

/-- Heap fragment for one event's muon containers: the original container's
pt fields, and the shallow copy (its element count plus the auxiliary store
holding only the fields that were written). -/
structure Heap where
  /-- pt fields of the original container's elements -/
  origMuons : List Int
  /-- number of elements of the shallow-copy container -/
  copySize : Nat
  /-- the shallow auxiliary store: pt values written to the copy, by index -/
  written : Nat → Option Int

/-- Read the original container's element pt at index i. -/
def readOrig (h : Heap) (i : Nat) : Int :=
  h.origMuons.getD i 0

/-- Read the shallow copy's element pt at index i: a written field if present,
otherwise the original's field (modelled from the spec: a shallow copy
references unmodified fields of the original and stores only fields that are
subsequently written). -/
def readCopy (h : Heap) (i : Nat) : Int :=
  (h.written i).getD (h.origMuons.getD i 0)

/-- Modelled from the spec: xAOD::shallowCopyContainer (line 110) is framework
code not in this repository.  It produces a new collection with the same
number of elements as the original, referencing the original's unmodified
fields and materializing none of its own yet. -/
def shallowCopyContainer (pts : List Int) : Heap :=
  ⟨pts, pts.length, fun _ => none⟩

/-- Modelled from the spec: the calibration tool's successful applyCorrection
(line 116) mutates the copied particle's kinematic field by adding a fixed
offset; the write lands in the shallow auxiliary store. -/
def applyCorrection (off : Int) (h : Heap) (i : Nat) : Heap :=
  { h with written := fun j => if j = i then some (readCopy h i + off) else h.written j }

/-- The CHECK macro (lines 26-34): if the wrapped call's result is false, log
the "Failed to execute" error naming the call's source text and make main
return 1; otherwise continue with the rest of the program. -/
def CHECK (argText : String) (result : Bool) (k : Nat × List Ev) : Nat × List Ev :=
  if result then k else (1, [Ev.errFail argText])

/-- Prepend already-emitted events to the rest of the run's result. -/
def prependR (es : List Ev) (r : Nat × List Ev) : Nat × List Ev :=
  (r.fst, es ++ r.snd)

/-- Prepend already-emitted events to the muon loop's result. -/
def prependT (es : List Ev) : Except (List Ev) (Heap × List Ev) → Except (List Ev) (Heap × List Ev)
  | Except.ok (h, d) => Except.ok (h, es ++ d)
  | Except.error d => Except.error (es ++ d)

/-- Source text of the CHECK at line 50. -/
def initCheckText : String := "xAOD::Init(APP_NAME)"

/-- Source text of the CHECK at line 57. -/
def fileCheckText : String := "file.get()"

/-- Source text of the CHECK at line 61. -/
def readFromCheckText : String := "event.readFrom(file.get())"

/-- Source text of the CHECK at line 73. -/
def calibInitCheckText : String := "muonCalibTool.initialize()"

/-- Source text of the CHECK at line 77. -/
def selPropCheckText : String := "muonSelectTool.setProperty(\"MuQuality\", (int)xAOD::Muon::Medium)"

/-- Source text of the CHECK at line 78. -/
def selInitCheckText : String := "muonSelectTool.initialize()"

/-- Source text of the CHECK at line 82. -/
def effPropCheckText : String := "muonEffTool.setProperty(\"WorkingPoint\", \"CBandST\")"

/-- Source text of the CHECK at line 83. -/
def effInitCheckText : String := "muonEffTool.initialize()"

/-- Source text of the CHECK at line 95. -/
def evtInfoCheckText : String := "event.retrieve(evtInfo, \"EventInfo\")"

/-- Source text of the CHECK at line 103. -/
def muonsCheckText : String := "event.retrieve(muons, \"Muons\")"

/-- Source text of the CHECK at line 116. -/
def calibCheckText : String := "muonCalibTool.applyCorrection(*muon) != CP::CorrectionCode::Error"

/-- Source text of the CHECK at lines 120-121. -/
def effCheckText : String := "muonEffTool.getEfficiencyScaleFactor(*muon, w) != CP::CorrectionCode::Error"

/-- Source text of the CHECK at line 134. -/
def rec1CheckText : String := "store.record(muonCopyPair.first, \"MyMuons\")"

/-- Source text of the CHECK at line 135. -/
def rec2CheckText : String := "store.record(muonCopyPair.second, \"MyMuonsAux.\")"

/-- The pt of the copy's muon i right after a successful applyCorrection on
it: the value the selection and efficiency tools are handed (lines 116-122). -/
def calibPt (env : Env) (h : Heap) (i : Nat) : Int :=
  readCopy (applyCorrection env.calibOffset h i) i

/-- The per-muon loop (lines 114-124) over the shallow copy's element
indices: CHECK applyCorrection, then if the selection accepts the (now
calibrated) muon, CHECK getEfficiencyScaleFactor and print the selected
line.  Returns the final heap and the events emitted, or, when a CHECK
fails, the events emitted up to and including the failure line. -/
def muonLoop (env : Env) (entry : Nat) : List Nat → Heap → Except (List Ev) (Heap × List Ev)
  | [], h => Except.ok (h, [])
  | i :: rest, h =>
    if env.calibOk entry i then
      if env.accept (calibPt env h i) then
        if env.effOk entry i then
          prependT [Ev.calibCall i, Ev.acceptCall i (calibPt env h i),
                    Ev.effCall i (calibPt env h i),
                    Ev.selectedMsg i (env.effWeight (calibPt env h i))]
            (muonLoop env entry rest (applyCorrection env.calibOffset h i))
        else
          Except.error [Ev.calibCall i, Ev.acceptCall i (calibPt env h i),
                        Ev.effCall i (calibPt env h i), Ev.errFail effCheckText]
      else
        prependT [Ev.calibCall i, Ev.acceptCall i (calibPt env h i)]
          (muonLoop env entry rest (applyCorrection env.calibOffset h i))
    else
      Except.error [Ev.calibCall i, Ev.errFail calibCheckText]

/-- The comparison loop (lines 127-131): one old-pt/new-pt line per index of
the original container. -/
def compareTrace (h : Heap) (n : Nat) : List Ev :=
  (List.range n).map (fun i => Ev.compareMsg i (readOrig h i) (readCopy h i))

/-- The store keys under which the copies are recorded (lines 134-135). -/
def recordedKeys : List String := ["MyMuons", "MyMuonsAux."]

/-- The event loop (lines 88-139), structurally recursing on the number of
remaining entries; `store` is the transient store's current key set.  Each
iteration: getEntry (status discarded), CHECK retrieve EventInfo, progress
line, CHECK retrieve Muons, muon-count line, shallow copy, muon loop,
comparison loop, two CHECKed record calls, store.clear. -/
def eventLoop (env : Env) : Nat → Nat → List String → Nat × List Ev
  | 0, _, _ => (0, [Ev.finishedMsg])
  | fuel + 1, entry, store =>
    prependR [Ev.getEntryCall entry, Ev.retrieveCall "EventInfo" entry]
      (CHECK evtInfoCheckText (env.evtInfoOk entry)
        (prependR [Ev.progressLine (env.eventNumber entry) (env.runNumber entry) entry,
                   Ev.retrieveCall "Muons" entry]
          (CHECK muonsCheckText (env.muonsOk entry)
            (let pts := env.muonPts entry
             let h0 := shallowCopyContainer pts
             prependR [Ev.numMuonsMsg pts.length]
               (match muonLoop env entry (List.range h0.copySize) h0 with
                | Except.error d => (1, d)
                | Except.ok (h1, d) =>
                  prependR (d ++ compareTrace h1 pts.length ++ [Ev.recordCall "MyMuons"])
                    (CHECK rec1CheckText (env.rec1Ok entry)
                      (prependR [Ev.recordCall "MyMuonsAux."]
                        (CHECK rec2CheckText (env.rec2Ok entry)
                          (prependR [Ev.clearStore (store ++ recordedKeys)]
                            (eventLoop env fuel (entry + 1) []))))))))))

/-- The whole program (lines 37-145): argument check, framework init, file
open, readFrom, event-count line, tool construction and initialization, then
the event loop over min(nEvents, 20) entries. -/
def runMain (env : Env) : Nat × List Ev :=
  if env.argc < 2 then (1, [Ev.errNoFile, Ev.usageMsg])
  else
    CHECK initCheckText env.xaodInitOk
      (prependR [Ev.infoOpenFile, Ev.fileOpenCall]
        (CHECK fileCheckText env.fileOpenOk
          (CHECK readFromCheckText env.readFromOk
            (prependR [Ev.infoNumEvents env.nEvents]
              (CHECK calibInitCheckText env.calibInitOk
                (CHECK selPropCheckText env.selPropOk
                  (CHECK selInitCheckText env.selInitOk
                    (CHECK effPropCheckText env.effPropOk
                      (CHECK effInitCheckText env.effInitOk
                        (eventLoop env (min env.nEvents 20) 0 []))))))))))

/-- The counters printed in the progress lines of a trace, in order. -/
def progressLog (tr : List Ev) : List Nat :=
  tr.filterMap (fun e => match e with
    | Ev.progressLine _ _ soFar => some soFar
    | _ => none)

/-- The key sets passed to store.clear in a trace, in order. -/
def clearLog (tr : List Ev) : List (List String) :=
  tr.filterMap (fun e => match e with
    | Ev.clearStore ks => some ks
    | _ => none)

/-- Whether an event is one of the per-muon tool-loop events (or a CHECK
failure line); everything the muon loop can emit is of this kind. -/
def muonEvKind : Ev → Bool
  | Ev.calibCall _ => true
  | Ev.acceptCall _ _ => true
  | Ev.effCall _ _ => true
  | Ev.selectedMsg _ _ => true
  | Ev.errFail _ => true
  | _ => false

/-- The trace a muon-loop result carries, whether it succeeded or aborted. -/
def muonDelta : Except (List Ev) (Heap × List Ev) → List Ev
  | Except.ok (_, d) => d
  | Except.error d => d

abbrev IterOk (env : Env) (j : Nat) : Prop :=
  env.evtInfoOk j = true ∧ env.muonsOk j = true ∧ env.rec1Ok j = true ∧
  env.rec2Ok j = true ∧
  ∀ i < (env.muonPts j).length, env.calibOk j i = true ∧ env.effOk j i = true

abbrev GlobalOk (env : Env) : Prop :=
  2 ≤ env.argc ∧ env.xaodInitOk = true ∧ env.fileOpenOk = true ∧ env.readFromOk = true ∧
  env.calibInitOk = true ∧ env.selPropOk = true ∧ env.selInitOk = true ∧
  env.effPropOk = true ∧ env.effInitOk = true

abbrev AllOk (env : Env) : Prop :=
  GlobalOk env ∧ ∀ j < min env.nEvents 20, IterOk env j

def isOkB : Except (List Ev) (Heap × List Ev) → Bool
  | Except.ok _ => true
  | Except.error _ => false

def iterML (env : Env) (entry : Nat) : Except (List Ev) (Heap × List Ev) :=
  muonLoop env entry (List.range (env.muonPts entry).length)
    (shallowCopyContainer (env.muonPts entry))

abbrev FailsAt (env : Env) (k : Nat) : Prop :=
  env.evtInfoOk k = false ∨
  (env.evtInfoOk k = true ∧ env.muonsOk k = false) ∨
  (env.evtInfoOk k = true ∧ env.muonsOk k = true ∧ isOkB (iterML env k) = false) ∨
  (env.evtInfoOk k = true ∧ env.muonsOk k = true ∧ isOkB (iterML env k) = true ∧
    env.rec1Ok k = false) ∨
  (env.evtInfoOk k = true ∧ env.muonsOk k = true ∧ isOkB (iterML env k) = true ∧
    env.rec1Ok k = true ∧ env.rec2Ok k = false)

def envBase : Env where
  argc := 2
  xaodInitOk := true
  fileOpenOk := true
  readFromOk := true
  nEvents := 2
  calibInitOk := true
  selPropOk := true
  selInitOk := true
  effPropOk := true
  effInitOk := true
  getEntryOk := fun _ => true
  evtInfoOk := fun _ => true
  eventNumber := fun e => 100 + e
  runNumber := fun _ => 7
  muonsOk := fun _ => true
  muonPts := fun _ => [5, -3]
  calibOffset := 2
  calibOk := fun _ _ => true
  accept := fun p => decide (0 < p)
  effOk := fun _ _ => true
  effWeight := fun p => p * 10
  rec1Ok := fun _ => true
  rec2Ok := fun _ => true

def envGE : Env := { envBase with getEntryOk := fun _ => false }

def envMU : Env := { envBase with muonsOk := fun _ => false }

def envEI : Env := { envBase with evtInfoOk := fun _ => false }

def envCI : Env := { envBase with calibInitOk := false }

def envNoArg : Env := { envBase with argc := 1 }

def envR2 : Env := { envBase with rec2Ok := fun _ => false }


theorem origMuons_applyCorrection (off : Int) (h : Heap) (i : Nat) :
    (applyCorrection off h i).origMuons = h.origMuons := rfl

theorem copySize_applyCorrection (off : Int) (h : Heap) (i : Nat) :
    (applyCorrection off h i).copySize = h.copySize := rfl

theorem written_applyCorrection_self (off : Int) (h : Heap) (i : Nat) :
    (applyCorrection off h i).written i = some (readCopy h i + off) := by
  simp [applyCorrection]

theorem written_applyCorrection_ne (off : Int) (h : Heap) (i j : Nat) (hne : j ≠ i) :
    (applyCorrection off h i).written j = h.written j := by
  simp [applyCorrection, hne]

theorem readCopy_applyCorrection_self (off : Int) (h : Heap) (i : Nat) :
    readCopy (applyCorrection off h i) i = readCopy h i + off := by
  simp [readCopy, applyCorrection]

theorem readCopy_applyCorrection_ne (off : Int) (h : Heap) (i j : Nat) (hne : j ≠ i) :
    readCopy (applyCorrection off h i) j = readCopy h j := by
  simp [readCopy, applyCorrection, hne]

theorem calibPt_eq (env : Env) (h : Heap) (i : Nat) :
    calibPt env h i = readCopy h i + env.calibOffset :=
  readCopy_applyCorrection_self _ _ _

theorem muonDelta_prependT (es : List Ev) (r : Except (List Ev) (Heap × List Ev)) :
    muonDelta (prependT es r) = es ++ muonDelta r := by
  cases r with
  | ok p => cases p; rfl
  | error d => rfl

theorem muonLoop_kinds (env : Env) (entry : Nat) :
    ∀ (l : List Nat) (h : Heap) (e : Ev),
      e ∈ muonDelta (muonLoop env entry l h) → muonEvKind e = true := by
  intro l
  induction l with
  | nil => intro h e he; simp [muonLoop, muonDelta] at he
  | cons i rest ih =>
    intro h e he
    simp only [muonLoop] at he
    split_ifs at he with hc ha hf
    · rw [muonDelta_prependT, List.mem_append] at he
      rcases he with he | he
      · simp only [List.mem_cons, List.not_mem_nil, or_false] at he
        rcases he with rfl | rfl | rfl | rfl <;> rfl
      · exact ih _ e he
    · simp only [muonDelta, List.mem_cons, List.not_mem_nil, or_false] at he
      rcases he with rfl | rfl | rfl | rfl <;> rfl
    · rw [muonDelta_prependT, List.mem_append] at he
      rcases he with he | he
      · simp only [List.mem_cons, List.not_mem_nil, or_false] at he
        rcases he with rfl | rfl <;> rfl
      · exact ih _ e he
    · simp only [muonDelta, List.mem_cons, List.not_mem_nil, or_false] at he
      rcases he with rfl | rfl <;> rfl

theorem prependT_eq_ok (es : List Ev) (r : Except (List Ev) (Heap × List Ev)) (h' : Heap)
    (d : List Ev) (he : prependT es r = Except.ok (h', d)) :
    ∃ d2, r = Except.ok (h', d2) ∧ d = es ++ d2 := by
  cases r with
  | ok p =>
    obtain ⟨h2, d2⟩ := p
    simp only [prependT, Except.ok.injEq, Prod.mk.injEq] at he
    obtain ⟨rfl, rfl⟩ := he
    exact ⟨d2, rfl, rfl⟩
  | error d2 =>
    simp only [prependT] at he
    exact Except.noConfusion he

theorem muonLoop_preserves (env : Env) (entry : Nat) :
    ∀ (l : List Nat) (h h' : Heap) (d : List Ev),
      muonLoop env entry l h = Except.ok (h', d) →
      h'.origMuons = h.origMuons ∧ h'.copySize = h.copySize := by
  intro l
  induction l with
  | nil =>
    intro h h' d hml
    simp only [muonLoop, Except.ok.injEq, Prod.mk.injEq] at hml
    rw [← hml.1]
    exact ⟨rfl, rfl⟩
  | cons i rest ih =>
    intro h h' d hml
    simp only [muonLoop] at hml
    by_cases hc : env.calibOk entry i = true
    · rw [if_pos hc] at hml
      by_cases ha : env.accept (calibPt env h i) = true
      · rw [if_pos ha] at hml
        by_cases hf : env.effOk entry i = true
        · rw [if_pos hf] at hml
          obtain ⟨d2, hr, rfl⟩ := prependT_eq_ok _ _ _ _ hml
          exact ih (applyCorrection env.calibOffset h i) h' d2 hr
        · rw [if_neg hf] at hml
          exact Except.noConfusion hml
      · rw [if_neg ha] at hml
        obtain ⟨d2, hr, rfl⟩ := prependT_eq_ok _ _ _ _ hml
        exact ih (applyCorrection env.calibOffset h i) h' d2 hr
    · rw [if_neg hc] at hml
      exact Except.noConfusion hml

theorem muonLoop_calibrates (env : Env) (entry : Nat) :
    ∀ (l : List Nat) (h : Heap), l.Nodup →
      (∀ i ∈ l, env.calibOk entry i = true ∧ env.effOk entry i = true) →
      ∃ h' d, muonLoop env entry l h = Except.ok (h', d) ∧
        (∀ j, j ∉ l → h'.written j = h.written j) ∧
        (∀ i ∈ l, h'.written i = some (readCopy h i + env.calibOffset)) := by
  intro l
  induction l with
  | nil =>
    intro h _ _
    exact ⟨h, [], rfl, fun j _ => rfl, fun i hi => absurd hi (List.not_mem_nil i)⟩
  | cons i rest ih =>
    intro h hnd hok
    obtain ⟨hni, hndr⟩ := List.nodup_cons.mp hnd
    obtain ⟨hc, hf⟩ := hok i (List.mem_cons_self i rest)
    have hokr : ∀ i' ∈ rest, env.calibOk entry i' = true ∧ env.effOk entry i' = true :=
      fun i' hi' => hok i' (List.mem_cons_of_mem i hi')
    obtain ⟨h', d2, hr, hfr, hwr⟩ := ih (applyCorrection env.calibOffset h i) hndr hokr
    have hframe : ∀ j, j ∉ i :: rest → h'.written j = h.written j := by
      intro j hj
      rw [List.mem_cons, not_or] at hj
      rw [hfr j hj.2]
      exact written_applyCorrection_ne env.calibOffset h i j hj.1
    have hwrit : ∀ i' ∈ i :: rest, h'.written i' = some (readCopy h i' + env.calibOffset) := by
      intro i' hi'
      rcases List.mem_cons.mp hi' with rfl | hi'
      · rw [hfr i' hni]
        exact written_applyCorrection_self env.calibOffset h i'
      · have hne : i' ≠ i := fun he => hni (he ▸ hi')
        rw [hwr i' hi', readCopy_applyCorrection_ne env.calibOffset h i i' hne]
    by_cases ha : env.accept (calibPt env h i) = true
    · refine ⟨h', [Ev.calibCall i, Ev.acceptCall i (calibPt env h i),
                   Ev.effCall i (calibPt env h i),
                   Ev.selectedMsg i (env.effWeight (calibPt env h i))] ++ d2,
              ?_, hframe, hwrit⟩
      simp only [muonLoop, if_pos hc, if_pos ha, if_pos hf, hr, prependT]
    · refine ⟨h', [Ev.calibCall i, Ev.acceptCall i (calibPt env h i)] ++ d2,
              ?_, hframe, hwrit⟩
      simp only [muonLoop, if_pos hc, if_neg ha, hr, prependT]

theorem muonLoop_eff_mem (env : Env) (entry : Nat) :
    ∀ (l : List Nat) (h : Heap), l.Nodup →
      ∀ (i : Nat) (pt : Int), Ev.effCall i pt ∈ muonDelta (muonLoop env entry l h) →
      i ∈ l ∧ env.accept pt = true ∧ pt = readCopy h i + env.calibOffset ∧
      List.Sublist [Ev.calibCall i, Ev.acceptCall i pt, Ev.effCall i pt]
        (muonDelta (muonLoop env entry l h)) := by
  intro l
  induction l with
  | nil =>
    intro h _ i pt he
    simp [muonLoop, muonDelta] at he
  | cons j rest ih =>
    intro h hnd i pt he
    obtain ⟨hnj, hndr⟩ := List.nodup_cons.mp hnd
    by_cases hc : env.calibOk entry j = true
    · by_cases ha : env.accept (calibPt env h j) = true
      · by_cases hf : env.effOk entry j = true
        · rw [muonLoop, if_pos hc, if_pos ha, if_pos hf] at he ⊢
          rw [muonDelta_prependT] at he ⊢
          rcases List.mem_append.mp he with he' | he'
          · simp only [List.mem_cons, List.not_mem_nil, or_false] at he'
            rcases he' with he' | he' | he' | he'
            · exact Ev.noConfusion he'
            · exact Ev.noConfusion he'
            · obtain ⟨rfl, rfl⟩ := Ev.effCall.inj he'
              refine ⟨List.mem_cons_self i rest, ha, calibPt_eq env h i, ?_⟩
              exact List.sublist_append_left
                [Ev.calibCall i, Ev.acceptCall i (calibPt env h i),
                 Ev.effCall i (calibPt env h i)]
                (Ev.selectedMsg i (env.effWeight (calibPt env h i)) ::
                  muonDelta (muonLoop env entry rest (applyCorrection env.calibOffset h i)))
            · exact Ev.noConfusion he'
          · obtain ⟨hmem, hacc, hval, hsub⟩ :=
              ih (applyCorrection env.calibOffset h j) hndr i pt he'
            have hne : i ≠ j := fun hij => hnj (hij ▸ hmem)
            refine ⟨List.mem_cons_of_mem j hmem, hacc, ?_, ?_⟩
            · rw [hval, readCopy_applyCorrection_ne env.calibOffset h j i hne]
            · exact hsub.trans (List.sublist_append_right _ _)
        · rw [muonLoop, if_pos hc, if_pos ha, if_neg hf] at he ⊢
          simp only [muonDelta, List.mem_cons, List.not_mem_nil, or_false] at he
          rcases he with he' | he' | he' | he'
          · exact Ev.noConfusion he'
          · exact Ev.noConfusion he'
          · obtain ⟨rfl, rfl⟩ := Ev.effCall.inj he'
            refine ⟨List.mem_cons_self i rest, ha, calibPt_eq env h i, ?_⟩
            exact List.sublist_append_left
              [Ev.calibCall i, Ev.acceptCall i (calibPt env h i),
               Ev.effCall i (calibPt env h i)]
              [Ev.errFail effCheckText]
          · exact Ev.noConfusion he'
      · rw [muonLoop, if_pos hc, if_neg ha] at he ⊢
        rw [muonDelta_prependT] at he ⊢
        rcases List.mem_append.mp he with he' | he'
        · simp only [List.mem_cons, List.not_mem_nil, or_false] at he'
          rcases he' with he' | he'
          · exact Ev.noConfusion he'
          · exact Ev.noConfusion he'
        · obtain ⟨hmem, hacc, hval, hsub⟩ :=
            ih (applyCorrection env.calibOffset h j) hndr i pt he'
          have hne : i ≠ j := fun hij => hnj (hij ▸ hmem)
          refine ⟨List.mem_cons_of_mem j hmem, hacc, ?_, ?_⟩
          · rw [hval, readCopy_applyCorrection_ne env.calibOffset h j i hne]
          · exact hsub.trans (List.sublist_append_right _ _)
    · rw [muonLoop, if_neg hc] at he ⊢
      simp only [muonDelta, List.mem_cons, List.not_mem_nil, or_false] at he
      rcases he with he' | he'
      · exact Ev.noConfusion he'
      · exact Ev.noConfusion he'

theorem progressLog_append (a b : List Ev) :
    progressLog (a ++ b) = progressLog a ++ progressLog b :=
  List.filterMap_append a b _

theorem clearLog_append (a b : List Ev) :
    clearLog (a ++ b) = clearLog a ++ clearLog b :=
  List.filterMap_append a b _

theorem progressLog_muonDelta (env : Env) (entry : Nat) (l : List Nat) (h : Heap) :
    progressLog (muonDelta (muonLoop env entry l h)) = [] := by
  refine List.filterMap_eq_nil_iff.mpr (fun e he => ?_)
  have hk := muonLoop_kinds env entry l h e he
  cases e <;> first | rfl | simp [muonEvKind] at hk

theorem clearLog_muonDelta (env : Env) (entry : Nat) (l : List Nat) (h : Heap) :
    clearLog (muonDelta (muonLoop env entry l h)) = [] := by
  refine List.filterMap_eq_nil_iff.mpr (fun e he => ?_)
  have hk := muonLoop_kinds env entry l h e he
  cases e <;> first | rfl | simp [muonEvKind] at hk

theorem progressLog_compareTrace (h : Heap) (n : Nat) :
    progressLog (compareTrace h n) = [] := by
  rw [compareTrace, progressLog, List.filterMap_map]
  exact List.filterMap_eq_nil_iff.mpr (fun a ha => rfl)

theorem clearLog_compareTrace (h : Heap) (n : Nat) :
    clearLog (compareTrace h n) = [] := by
  rw [compareTrace, clearLog, List.filterMap_map]
  exact List.filterMap_eq_nil_iff.mpr (fun a ha => rfl)

theorem eventLoop_step_ok (env : Env) (entry : Nat) (hit : IterOk env entry) :
    ∃ d, (∀ fuel, eventLoop env (fuel + 1) entry [] =
            ((eventLoop env fuel (entry + 1) []).fst,
             d ++ (eventLoop env fuel (entry + 1) []).snd)) ∧
      progressLog d = [entry] ∧ clearLog d = [recordedKeys] := by
  obtain ⟨hei, hmu, hr1, hr2, hcal⟩ := hit
  have hok : ∀ i ∈ List.range (env.muonPts entry).length,
      env.calibOk entry i = true ∧ env.effOk entry i = true :=
    fun i hi => hcal i (List.mem_range.mp hi)
  obtain ⟨h', d2, hml, -, -⟩ :=
    muonLoop_calibrates env entry (List.range (env.muonPts entry).length)
      (shallowCopyContainer (env.muonPts entry))
      (List.nodup_range (env.muonPts entry).length) hok
  have hd2 : muonDelta (muonLoop env entry (List.range (env.muonPts entry).length)
      (shallowCopyContainer (env.muonPts entry))) = d2 := by rw [hml]; rfl
  refine ⟨[Ev.getEntryCall entry, Ev.retrieveCall "EventInfo" entry,
           Ev.progressLine (env.eventNumber entry) (env.runNumber entry) entry,
           Ev.retrieveCall "Muons" entry,
           Ev.numMuonsMsg (env.muonPts entry).length] ++ d2 ++
           compareTrace h' (env.muonPts entry).length ++
           [Ev.recordCall "MyMuons", Ev.recordCall "MyMuonsAux.",
            Ev.clearStore recordedKeys], ?_, ?_, ?_⟩
  · intro fuel
    show prependR _ (CHECK _ _ _) = _
    rw [CHECK, if_pos hei, CHECK, if_pos hmu]
    show (prependR _ (prependR _ (prependR _
      (match muonLoop env entry (List.range (env.muonPts entry).length)
          (shallowCopyContainer (env.muonPts entry)) with
        | Except.error d => (1, d)
        | Except.ok (h1, d) => _))) : Nat × List Ev) = _
    rw [hml]
    show prependR _ (prependR _ (prependR _ (prependR _ (CHECK _ _ _)))) = _
    rw [CHECK, if_pos hr1, CHECK, if_pos hr2]
    simp only [prependR, List.nil_append, List.append_assoc, List.cons_append]
  · rw [progressLog_append, progressLog_append, progressLog_append, ← hd2,
        progressLog_muonDelta, progressLog_compareTrace]
    rfl
  · rw [clearLog_append, clearLog_append, clearLog_append, ← hd2,
        clearLog_muonDelta, clearLog_compareTrace]
    rfl

theorem eventLoop_prefix_ok (env : Env) :
    ∀ (k entry fuel : Nat),
      (∀ j, entry ≤ j → j < entry + k → IterOk env j) →
      ∃ d, eventLoop env (k + fuel) entry [] =
             ((eventLoop env fuel (entry + k) []).fst,
              d ++ (eventLoop env fuel (entry + k) []).snd) ∧
        progressLog d = List.range' entry k ∧
        clearLog d = List.replicate k recordedKeys := by
  intro k
  induction k with
  | zero =>
    intro entry fuel _
    exact ⟨[], by simp, rfl, rfl⟩
  | succ k ih =>
    intro entry fuel hok
    obtain ⟨d0, hstep, hp0, hc0⟩ := eventLoop_step_ok env entry
      (hok entry le_rfl (by omega))
    obtain ⟨d1, hrec, hp1, hc1⟩ := ih (entry + 1) fuel
      (fun j h1 h2 => hok j (by omega) (by omega))
    have hidx : entry + 1 + k = entry + (k + 1) := by omega
    rw [hidx] at hrec
    have hfuel : k + 1 + fuel = (k + fuel) + 1 := by omega
    refine ⟨d0 ++ d1, ?_, ?_, ?_⟩
    · rw [hfuel, hstep (k + fuel), hrec]
      simp [List.append_assoc]
    · rw [progressLog_append, hp0, hp1, List.range'_succ]
      rfl
    · rw [clearLog_append, hc0, hc1, List.replicate_succ]
      rfl

theorem runMain_globalOk (env : Env) (hg : GlobalOk env) :
    runMain env = ((eventLoop env (min env.nEvents 20) 0 []).fst,
      [Ev.infoOpenFile, Ev.fileOpenCall, Ev.infoNumEvents env.nEvents] ++
        (eventLoop env (min env.nEvents 20) 0 []).snd) := by
  obtain ⟨ha, h1, h2, h3, h4, h5, h6, h7, h8⟩ := hg
  rw [runMain, if_neg (by omega), CHECK, if_pos h1, CHECK, if_pos h2, CHECK,
      if_pos h3, CHECK, if_pos h4, CHECK, if_pos h5, CHECK, if_pos h6, CHECK,
      if_pos h7, CHECK, if_pos h8]
  simp [prependR]

/-- Claim C1: for an input exposing N events with every framework call
succeeding, the event loop processes exactly min(N, 20) events — the trace
holds exactly that many progress lines, with counters 0, ..., min(N,20)-1 —
and the counter printed in the last processed iteration's progress line
equals min(N, 20) - 1. -/
theorem runMain_allOk_progress (env : Env) (hall : AllOk env) :
    (runMain env).fst = 0 ∧
    progressLog (runMain env).snd = List.range (min env.nEvents 20) ∧
    (0 < min env.nEvents 20 →
      (progressLog (runMain env).snd).getLast? = some (min env.nEvents 20 - 1)) := by
  obtain ⟨hg, hiter⟩ := hall
  obtain ⟨d, heq, hp, hc⟩ := eventLoop_prefix_ok env (min env.nEvents 20) 0 0
    (fun j h1 h2 => hiter j (by omega))
  rw [Nat.add_zero] at heq
  simp only [eventLoop] at heq
  rw [runMain_globalOk env hg, heq]
  have hg0 : progressLog [Ev.infoOpenFile, Ev.fileOpenCall, Ev.infoNumEvents env.nEvents] = [] := rfl
  have hf0 : progressLog [Ev.finishedMsg] = [] := rfl
  refine ⟨rfl, ?_, ?_⟩
  · show progressLog (_ ++ (d ++ [Ev.finishedMsg])) = _
    rw [progressLog_append, progressLog_append, hp, ← List.range_eq_range', hg0, hf0,
        List.nil_append, List.append_nil]
  · intro hpos
    show (progressLog (_ ++ (d ++ [Ev.finishedMsg]))).getLast? = _
    rw [progressLog_append, progressLog_append, hp, ← List.range_eq_range', hg0, hf0,
        List.nil_append, List.append_nil, List.getLast?_range, if_neg (by omega)]

/-- Claim C4: in a fully successful run the transient store's clear
operation is invoked exactly once at the end of every completed iteration —
one clear per iteration, in order — and each clear's store content is
exactly the two entries recorded in its own iteration, so no recorded
entity survives past its owning iteration's store-clear call. -/
theorem runMain_allOk_clears (env : Env) (hall : AllOk env) :
    (runMain env).fst = 0 ∧
    clearLog (runMain env).snd = List.replicate (min env.nEvents 20) recordedKeys := by
  obtain ⟨hg, hiter⟩ := hall
  obtain ⟨d, heq, hp, hc⟩ := eventLoop_prefix_ok env (min env.nEvents 20) 0 0
    (fun j h1 h2 => hiter j (by omega))
  rw [Nat.add_zero] at heq
  simp only [eventLoop] at heq
  rw [runMain_globalOk env hg, heq]
  have hg0 : clearLog [Ev.infoOpenFile, Ev.fileOpenCall, Ev.infoNumEvents env.nEvents] = [] := rfl
  have hf0 : clearLog [Ev.finishedMsg] = [] := rfl
  refine ⟨rfl, ?_⟩
  show clearLog (_ ++ (d ++ [Ev.finishedMsg])) = _
  rw [clearLog_append, clearLog_append, hc, hg0, hf0, List.nil_append, List.append_nil]

theorem eventLoop_fail_evtInfo (env : Env) (fuel entry : Nat) (store : List String)
    (h : env.evtInfoOk entry = false) :
    eventLoop env (fuel + 1) entry store =
      (1, [Ev.getEntryCall entry, Ev.retrieveCall "EventInfo" entry,
           Ev.errFail evtInfoCheckText]) := by
  show prependR _ (CHECK _ _ _) = _
  rw [CHECK, if_neg (by simp [h])]
  rfl

theorem eventLoop_fail_muons (env : Env) (fuel entry : Nat) (store : List String)
    (h1 : env.evtInfoOk entry = true) (h2 : env.muonsOk entry = false) :
    eventLoop env (fuel + 1) entry store =
      (1, [Ev.getEntryCall entry, Ev.retrieveCall "EventInfo" entry,
           Ev.progressLine (env.eventNumber entry) (env.runNumber entry) entry,
           Ev.retrieveCall "Muons" entry, Ev.errFail muonsCheckText]) := by
  show prependR _ (CHECK _ _ _) = _
  rw [CHECK, if_pos h1, CHECK, if_neg (by simp [h2])]
  rfl

theorem eventLoop_fail_muonLoop (env : Env) (fuel entry : Nat) (store : List String)
    (d : List Ev) (h1 : env.evtInfoOk entry = true) (h2 : env.muonsOk entry = true)
    (hml : muonLoop env entry (List.range (env.muonPts entry).length)
        (shallowCopyContainer (env.muonPts entry)) = Except.error d) :
    eventLoop env (fuel + 1) entry store =
      (1, [Ev.getEntryCall entry, Ev.retrieveCall "EventInfo" entry,
           Ev.progressLine (env.eventNumber entry) (env.runNumber entry) entry,
           Ev.retrieveCall "Muons" entry, Ev.numMuonsMsg (env.muonPts entry).length] ++ d) := by
  show prependR _ (CHECK _ _ _) = _
  rw [CHECK, if_pos h1, CHECK, if_pos h2]
  show (prependR _ (prependR _ (prependR _
    (match muonLoop env entry (List.range (env.muonPts entry).length)
        (shallowCopyContainer (env.muonPts entry)) with
      | Except.error d => (1, d)
      | Except.ok (h1, d) => _))) : Nat × List Ev) = _
  rw [hml]
  simp [prependR]

theorem eventLoop_fail_rec1 (env : Env) (fuel entry : Nat) (store : List String)
    (h' : Heap) (d : List Ev) (h1 : env.evtInfoOk entry = true)
    (h2 : env.muonsOk entry = true)
    (hml : muonLoop env entry (List.range (env.muonPts entry).length)
        (shallowCopyContainer (env.muonPts entry)) = Except.ok (h', d))
    (hr1 : env.rec1Ok entry = false) :
    eventLoop env (fuel + 1) entry store =
      (1, [Ev.getEntryCall entry, Ev.retrieveCall "EventInfo" entry,
           Ev.progressLine (env.eventNumber entry) (env.runNumber entry) entry,
           Ev.retrieveCall "Muons" entry, Ev.numMuonsMsg (env.muonPts entry).length] ++
          d ++ compareTrace h' (env.muonPts entry).length ++
          [Ev.recordCall "MyMuons", Ev.errFail rec1CheckText]) := by
  show prependR _ (CHECK _ _ _) = _
  rw [CHECK, if_pos h1, CHECK, if_pos h2]
  show (prependR _ (prependR _ (prependR _
    (match muonLoop env entry (List.range (env.muonPts entry).length)
        (shallowCopyContainer (env.muonPts entry)) with
      | Except.error d => (1, d)
      | Except.ok (h1, d) => _))) : Nat × List Ev) = _
  rw [hml]
  show prependR _ (prependR _ (prependR _ (prependR _ (CHECK _ _ _)))) = _
  rw [CHECK, if_neg (by simp [hr1])]
  simp [prependR, List.append_assoc]

theorem eventLoop_fail_rec2 (env : Env) (fuel entry : Nat) (store : List String)
    (h' : Heap) (d : List Ev) (h1 : env.evtInfoOk entry = true)
    (h2 : env.muonsOk entry = true)
    (hml : muonLoop env entry (List.range (env.muonPts entry).length)
        (shallowCopyContainer (env.muonPts entry)) = Except.ok (h', d))
    (hr1 : env.rec1Ok entry = true) (hr2 : env.rec2Ok entry = false) :
    eventLoop env (fuel + 1) entry store =
      (1, [Ev.getEntryCall entry, Ev.retrieveCall "EventInfo" entry,
           Ev.progressLine (env.eventNumber entry) (env.runNumber entry) entry,
           Ev.retrieveCall "Muons" entry, Ev.numMuonsMsg (env.muonPts entry).length] ++
          d ++ compareTrace h' (env.muonPts entry).length ++
          [Ev.recordCall "MyMuons", Ev.recordCall "MyMuonsAux.",
           Ev.errFail rec2CheckText]) := by
  show prependR _ (CHECK _ _ _) = _
  rw [CHECK, if_pos h1, CHECK, if_pos h2]
  show (prependR _ (prependR _ (prependR _
    (match muonLoop env entry (List.range (env.muonPts entry).length)
        (shallowCopyContainer (env.muonPts entry)) with
      | Except.error d => (1, d)
      | Except.ok (h1, d) => _))) : Nat × List Ev) = _
  rw [hml]
  show prependR _ (prependR _ (prependR _ (prependR _ (CHECK _ _ _)))) = _
  rw [CHECK, if_pos hr1]
  show prependR _ (prependR _ (prependR _ (prependR _ (prependR _ (CHECK _ _ _))))) = _
  rw [CHECK, if_neg (by simp [hr2])]
  simp [prependR, List.append_assoc]

theorem clearLog_globalPart (env : Env) :
    clearLog [Ev.infoOpenFile, Ev.fileOpenCall, Ev.infoNumEvents env.nEvents] = [] := rfl

theorem progressLog_globalPart (env : Env) :
    progressLog [Ev.infoOpenFile, Ev.fileOpenCall, Ev.infoNumEvents env.nEvents] = [] := rfl

/-- Claim C10: when a CHECK-wrapped framework call fails inside loop
iteration k (after k fully successful iterations), main returns 1
immediately and the trace contains exactly k store-clear events: the
failing iteration's end-of-iteration clear is skipped on the error path. -/
theorem checked_failure_skips_clear (env : Env) (k : Nat) (hg : GlobalOk env)
    (hpre : ∀ j < k, IterOk env j) (hk : k < min env.nEvents 20) (hf : FailsAt env k) :
    (runMain env).fst = 1 ∧
    clearLog (runMain env).snd = List.replicate k recordedKeys := by
  obtain ⟨d, heq, hp, hc⟩ := eventLoop_prefix_ok env k 0 (min env.nEvents 20 - k)
    (fun j h1 h2 => hpre j (by omega))
  have hmin : k + (min env.nEvents 20 - k) = min env.nEvents 20 := by omega
  rw [hmin, Nat.zero_add] at heq
  obtain ⟨f, hfe⟩ : ∃ f, min env.nEvents 20 - k = f + 1 :=
    ⟨min env.nEvents 20 - k - 1, by omega⟩
  rw [hfe] at heq
  rw [runMain_globalOk env hg, heq]
  rcases hf with hev | ⟨hev, hmu⟩ | ⟨hev, hmu, hml⟩ | ⟨hev, hmu, hml, hr1⟩ |
    ⟨hev, hmu, hml, hr1, hr2⟩
  · rw [eventLoop_fail_evtInfo env f k [] hev]
    refine ⟨rfl, ?_⟩
    simp only [clearLog_append]
    rw [hc, clearLog_globalPart]
    simp [clearLog]
  · rw [eventLoop_fail_muons env f k [] hev hmu]
    refine ⟨rfl, ?_⟩
    simp only [clearLog_append]
    rw [hc, clearLog_globalPart]
    simp [clearLog]
  · rcases hde : iterML env k with d' | p
    · have hml' : muonLoop env k (List.range (env.muonPts k).length)
          (shallowCopyContainer (env.muonPts k)) = Except.error d' := hde
      rw [eventLoop_fail_muonLoop env f k [] d' hev hmu hml']
      refine ⟨rfl, ?_⟩
      have hd' : clearLog d' = [] := by
        have h0 := clearLog_muonDelta env k (List.range (env.muonPts k).length)
          (shallowCopyContainer (env.muonPts k))
        have h1 : muonDelta (iterML env k) = d' := by rw [hde]; rfl
        rw [← h1]
        exact h0
      simp only [clearLog_append]
      rw [hc, hd', clearLog_globalPart]
      simp [clearLog]
    · rw [hde] at hml
      exact absurd hml (by simp [isOkB])
  · rcases hde : iterML env k with d' | p
    · rw [hde] at hml
      exact absurd hml (by simp [isOkB])
    · obtain ⟨h', d'⟩ := p
      have hml' : muonLoop env k (List.range (env.muonPts k).length)
          (shallowCopyContainer (env.muonPts k)) = Except.ok (h', d') := hde
      rw [eventLoop_fail_rec1 env f k [] h' d' hev hmu hml' hr1]
      refine ⟨rfl, ?_⟩
      have hd' : clearLog d' = [] := by
        have h0 := clearLog_muonDelta env k (List.range (env.muonPts k).length)
          (shallowCopyContainer (env.muonPts k))
        have h1 : muonDelta (iterML env k) = d' := by rw [hde]; rfl
        rw [← h1]
        exact h0
      simp only [clearLog_append]
      rw [hc, hd', clearLog_globalPart, clearLog_compareTrace]
      simp [clearLog]
  · rcases hde : iterML env k with d' | p
    · rw [hde] at hml
      exact absurd hml (by simp [isOkB])
    · obtain ⟨h', d'⟩ := p
      have hml' : muonLoop env k (List.range (env.muonPts k).length)
          (shallowCopyContainer (env.muonPts k)) = Except.ok (h', d') := hde
      rw [eventLoop_fail_rec2 env f k [] h' d' hev hmu hml' hr1 hr2]
      refine ⟨rfl, ?_⟩
      have hd' : clearLog d' = [] := by
        have h0 := clearLog_muonDelta env k (List.range (env.muonPts k).length)
          (shallowCopyContainer (env.muonPts k))
        have h1 : muonDelta (iterML env k) = d' := by rw [hde]; rfl
        rw [← h1]
        exact h0
      simp only [clearLog_append]
      rw [hc, hd', clearLog_globalPart, clearLog_compareTrace]
      simp [clearLog]

/-- Claim C5 (amended): if the EventInfo retrieval of iteration k (0-based,
after k fully successful iterations) fails, the program exits with status 1
having emitted exactly k progress lines; if instead the muon-container
retrieval of iteration k fails, it exits with status 1 having emitted
exactly k + 1 progress lines, because the progress line is printed before
that retrieval. -/
theorem retrieval_failure_progress_lines (env : Env) (k : Nat) (hg : GlobalOk env)
    (hpre : ∀ j < k, IterOk env j) (hk : k < min env.nEvents 20) :
    (env.evtInfoOk k = false →
        (runMain env).fst = 1 ∧ (progressLog (runMain env).snd).length = k) ∧
    (env.evtInfoOk k = true → env.muonsOk k = false →
        (runMain env).fst = 1 ∧ (progressLog (runMain env).snd).length = k + 1) := by
  obtain ⟨d, heq, hp, hc⟩ := eventLoop_prefix_ok env k 0 (min env.nEvents 20 - k)
    (fun j h1 h2 => hpre j (by omega))
  have hmin : k + (min env.nEvents 20 - k) = min env.nEvents 20 := by omega
  rw [hmin, Nat.zero_add] at heq
  obtain ⟨f, hfe⟩ : ∃ f, min env.nEvents 20 - k = f + 1 :=
    ⟨min env.nEvents 20 - k - 1, by omega⟩
  rw [hfe] at heq
  constructor
  · intro hev
    rw [runMain_globalOk env hg, heq, eventLoop_fail_evtInfo env f k [] hev]
    refine ⟨rfl, ?_⟩
    simp only [progressLog_append]
    rw [hp, progressLog_globalPart]
    simp [progressLog, List.length_range']
  · intro hev hmu
    rw [runMain_globalOk env hg, heq, eventLoop_fail_muons env f k [] hev hmu]
    refine ⟨rfl, ?_⟩
    simp only [progressLog_append]
    rw [hp, progressLog_globalPart]
    simp [progressLog, List.length_range']

theorem muonLoop_accept_mem (env : Env) (entry : Nat) :
    ∀ (l : List Nat) (h : Heap), l.Nodup →
      ∀ (i : Nat) (pt : Int), Ev.acceptCall i pt ∈ muonDelta (muonLoop env entry l h) →
      i ∈ l ∧ pt = readCopy h i + env.calibOffset ∧ env.calibOk entry i = true ∧
      List.Sublist [Ev.calibCall i, Ev.acceptCall i pt]
        (muonDelta (muonLoop env entry l h)) := by
  intro l
  induction l with
  | nil =>
    intro h _ i pt he
    simp [muonLoop, muonDelta] at he
  | cons j rest ih =>
    intro h hnd i pt he
    obtain ⟨hnj, hndr⟩ := List.nodup_cons.mp hnd
    by_cases hc : env.calibOk entry j = true
    · by_cases ha : env.accept (calibPt env h j) = true
      · by_cases hf : env.effOk entry j = true
        · rw [muonLoop, if_pos hc, if_pos ha, if_pos hf] at he ⊢
          rw [muonDelta_prependT] at he ⊢
          rcases List.mem_append.mp he with he' | he'
          · simp only [List.mem_cons, List.not_mem_nil, or_false] at he'
            rcases he' with he' | he' | he' | he'
            · exact Ev.noConfusion he'
            · obtain ⟨rfl, rfl⟩ := Ev.acceptCall.inj he'
              refine ⟨List.mem_cons_self i rest, calibPt_eq env h i, hc, ?_⟩
              exact List.sublist_append_left
                [Ev.calibCall i, Ev.acceptCall i (calibPt env h i)]
                (Ev.effCall i (calibPt env h i) ::
                  Ev.selectedMsg i (env.effWeight (calibPt env h i)) ::
                  muonDelta (muonLoop env entry rest (applyCorrection env.calibOffset h i)))
            · exact Ev.noConfusion he'
            · exact Ev.noConfusion he'
          · obtain ⟨hmem, hval, hcal, hsub⟩ :=
              ih (applyCorrection env.calibOffset h j) hndr i pt he'
            have hne : i ≠ j := fun hij => hnj (hij ▸ hmem)
            refine ⟨List.mem_cons_of_mem j hmem, ?_, hcal, ?_⟩
            · rw [hval, readCopy_applyCorrection_ne env.calibOffset h j i hne]
            · exact hsub.trans (List.sublist_append_right _ _)
        · rw [muonLoop, if_pos hc, if_pos ha, if_neg hf] at he ⊢
          simp only [muonDelta, List.mem_cons, List.not_mem_nil, or_false] at he
          rcases he with he' | he' | he' | he'
          · exact Ev.noConfusion he'
          · obtain ⟨rfl, rfl⟩ := Ev.acceptCall.inj he'
            refine ⟨List.mem_cons_self i rest, calibPt_eq env h i, hc, ?_⟩
            exact List.sublist_append_left
              [Ev.calibCall i, Ev.acceptCall i (calibPt env h i)]
              [Ev.effCall i (calibPt env h i), Ev.errFail effCheckText]
          · exact Ev.noConfusion he'
          · exact Ev.noConfusion he'
      · rw [muonLoop, if_pos hc, if_neg ha] at he ⊢
        rw [muonDelta_prependT] at he ⊢
        rcases List.mem_append.mp he with he' | he'
        · simp only [List.mem_cons, List.not_mem_nil, or_false] at he'
          rcases he' with he' | he'
          · exact Ev.noConfusion he'
          · obtain ⟨rfl, rfl⟩ := Ev.acceptCall.inj he'
            refine ⟨List.mem_cons_self i rest, calibPt_eq env h i, hc, ?_⟩
            exact List.sublist_append_left
              [Ev.calibCall i, Ev.acceptCall i (calibPt env h i)]
              (muonDelta (muonLoop env entry rest (applyCorrection env.calibOffset h i)))
        · obtain ⟨hmem, hval, hcal, hsub⟩ :=
            ih (applyCorrection env.calibOffset h j) hndr i pt he'
          have hne : i ≠ j := fun hij => hnj (hij ▸ hmem)
          refine ⟨List.mem_cons_of_mem j hmem, ?_, hcal, ?_⟩
          · rw [hval, readCopy_applyCorrection_ne env.calibOffset h j i hne]
          · exact hsub.trans (List.sublist_append_right _ _)
    · rw [muonLoop, if_neg hc] at he ⊢
      simp only [muonDelta, List.mem_cons, List.not_mem_nil, or_false] at he
      rcases he with he' | he'
      · exact Ev.noConfusion he'
      · exact Ev.noConfusion he'

/-- Claim C3: when the per-muon tool loop completes, the calibration
offset is observable on every element of the shallow copy while the
original container's elements are unchanged: reading the original at any
index yields the pre-loop value, and reading the copy yields that value
plus the calibration offset. -/
theorem calibration_mutates_copy_not_original (env : Env) (entry : Nat)
    (hok : ∀ i < (env.muonPts entry).length,
      env.calibOk entry i = true ∧ env.effOk entry i = true) :
    ∃ h' d, iterML env entry = Except.ok (h', d) ∧
      h'.origMuons = env.muonPts entry ∧
      ∀ i < (env.muonPts entry).length,
        readOrig h' i = (env.muonPts entry).getD i 0 ∧
        readCopy h' i = (env.muonPts entry).getD i 0 + env.calibOffset := by
  obtain ⟨h', d, hml, hfr, hwr⟩ := muonLoop_calibrates env entry
    (List.range (env.muonPts entry).length) (shallowCopyContainer (env.muonPts entry))
    (List.nodup_range _) (fun i hi => hok i (List.mem_range.mp hi))
  have horig : h'.origMuons = env.muonPts entry :=
    (muonLoop_preserves env entry _ _ _ _ hml).1
  refine ⟨h', d, hml, horig, fun i hi => ⟨?_, ?_⟩⟩
  · rw [readOrig, horig]
  · have hw := hwr i (List.mem_range.mpr hi)
    rw [readCopy, horig, hw]
    rfl

/-- Claim C9: the shallow copy has the same number of elements as the
original container, and the per-muon loop preserves that size, so the
before/after comparison loop's accesses to the copy at every index below
the original container's size are in bounds. -/
theorem shallow_copy_preserves_size (env : Env) (entry : Nat) :
    (shallowCopyContainer (env.muonPts entry)).copySize = (env.muonPts entry).length ∧
    ∀ h' d, iterML env entry = Except.ok (h', d) →
      h'.copySize = (env.muonPts entry).length := by
  refine ⟨rfl, fun h' d hml => ?_⟩
  exact (muonLoop_preserves env entry _ _ _ _ hml).2

/-- Claim C8: per muon, the tool calls follow the fixed sequence: the
calibration call first, then the quality-selection predicate on the
calibrated value, and the efficiency-weight computation only for muons the
predicate accepts — never for a rejected muon — keyed on the
already-calibrated value.  Any selection or efficiency call in the trace
is preceded, in order, by that muon's calibration call. -/
theorem efficiency_only_for_accepted_calibrated (env : Env) (entry i : Nat) (pt : Int) :
    (Ev.acceptCall i pt ∈ muonDelta (iterML env entry) →
       env.calibOk entry i = true ∧
       pt = (env.muonPts entry).getD i 0 + env.calibOffset ∧
       List.Sublist [Ev.calibCall i, Ev.acceptCall i pt] (muonDelta (iterML env entry))) ∧
    (Ev.effCall i pt ∈ muonDelta (iterML env entry) →
       env.accept pt = true ∧
       pt = (env.muonPts entry).getD i 0 + env.calibOffset ∧
       List.Sublist [Ev.calibCall i, Ev.acceptCall i pt, Ev.effCall i pt]
         (muonDelta (iterML env entry))) := by
  constructor
  · intro he
    obtain ⟨hmem, hval, hcal, hsub⟩ := muonLoop_accept_mem env entry
      (List.range (env.muonPts entry).length) (shallowCopyContainer (env.muonPts entry))
      (List.nodup_range _) i pt he
    exact ⟨hcal, hval, hsub⟩
  · intro he
    obtain ⟨hmem, hacc, hval, hsub⟩ := muonLoop_eff_mem env entry
      (List.range (env.muonPts entry).length) (shallowCopyContainer (env.muonPts entry))
      (List.nodup_range _) i pt he
    exact ⟨hacc, hval, hsub⟩

/-- Claim C6: if a tool's initialize call reports failure, the program
exits with status 1 before entering the event loop: the trace contains no
event-retrieval call and no getEntry call. -/
theorem tool_init_failure_stops_before_loop (env : Env) (ha : 2 ≤ env.argc)
    (h1 : env.xaodInitOk = true) (h2 : env.fileOpenOk = true)
    (h3 : env.readFromOk = true)
    (hf : env.calibInitOk = false ∨
          (env.calibInitOk = true ∧ env.selPropOk = true ∧ env.selInitOk = false) ∨
          (env.calibInitOk = true ∧ env.selPropOk = true ∧ env.selInitOk = true ∧
            env.effPropOk = true ∧ env.effInitOk = false)) :
    (runMain env).fst = 1 ∧
    (∀ key entry, Ev.retrieveCall key entry ∉ (runMain env).snd) ∧
    (∀ entry, Ev.getEntryCall entry ∉ (runMain env).snd) := by
  rcases hf with hc | ⟨hc, hsp, hsi⟩ | ⟨hc, hsp, hsi, hep, hei⟩
  · have hrun : runMain env = (1, [Ev.infoOpenFile, Ev.fileOpenCall,
        Ev.infoNumEvents env.nEvents, Ev.errFail calibInitCheckText]) := by
      rw [runMain, if_neg (by omega), CHECK, if_pos h1, CHECK, if_pos h2, CHECK,
          if_pos h3, CHECK, if_neg (by simp [hc])]
      rfl
    rw [hrun]
    refine ⟨rfl, ?_, ?_⟩
    · intro key entry hmem
      simp only [List.mem_cons, List.not_mem_nil, or_false] at hmem
      rcases hmem with h | h | h | h <;> exact Ev.noConfusion h
    · intro entry hmem
      simp only [List.mem_cons, List.not_mem_nil, or_false] at hmem
      rcases hmem with h | h | h | h <;> exact Ev.noConfusion h
  · have hrun : runMain env = (1, [Ev.infoOpenFile, Ev.fileOpenCall,
        Ev.infoNumEvents env.nEvents, Ev.errFail selInitCheckText]) := by
      rw [runMain, if_neg (by omega), CHECK, if_pos h1, CHECK, if_pos h2, CHECK,
          if_pos h3, CHECK, if_pos hc, CHECK, if_pos hsp, CHECK, if_neg (by simp [hsi])]
      rfl
    rw [hrun]
    refine ⟨rfl, ?_, ?_⟩
    · intro key entry hmem
      simp only [List.mem_cons, List.not_mem_nil, or_false] at hmem
      rcases hmem with h | h | h | h <;> exact Ev.noConfusion h
    · intro entry hmem
      simp only [List.mem_cons, List.not_mem_nil, or_false] at hmem
      rcases hmem with h | h | h | h <;> exact Ev.noConfusion h
  · have hrun : runMain env = (1, [Ev.infoOpenFile, Ev.fileOpenCall,
        Ev.infoNumEvents env.nEvents, Ev.errFail effInitCheckText]) := by
      rw [runMain, if_neg (by omega), CHECK, if_pos h1, CHECK, if_pos h2, CHECK,
          if_pos h3, CHECK, if_pos hc, CHECK, if_pos hsp, CHECK, if_pos hsi, CHECK,
          if_pos hep, CHECK, if_neg (by simp [hei])]
      rfl
    rw [hrun]
    refine ⟨rfl, ?_, ?_⟩
    · intro key entry hmem
      simp only [List.mem_cons, List.not_mem_nil, or_false] at hmem
      rcases hmem with h | h | h | h <;> exact Ev.noConfusion h
    · intro entry hmem
      simp only [List.mem_cons, List.not_mem_nil, or_false] at hmem
      rcases hmem with h | h | h | h <;> exact Ev.noConfusion h

/-- Claim C7: invoked with no command-line argument beyond the program
name, the program prints the no-file-name error and the usage message,
exits with status 1, and performs no file access. -/
theorem no_argument_prints_usage_and_exits_1 (env : Env) (h : env.argc = 1) :
    runMain env = (1, [Ev.errNoFile, Ev.usageMsg]) ∧
    Ev.fileOpenCall ∉ (runMain env).snd := by
  have hrun : runMain env = (1, [Ev.errNoFile, Ev.usageMsg]) := by
    rw [runMain, if_pos (by omega)]
  refine ⟨hrun, ?_⟩
  rw [hrun]
  intro hmem
  simp only [List.mem_cons, List.not_mem_nil, or_false] at hmem
  rcases hmem with h' | h' <;> exact Ev.noConfusion h'

/-- Claim C2 (amended): a CHECK-wrapped framework call that reports
failure makes the enclosing main log the error line naming the failed
call's source text and return exit status 1 immediately, regardless of
what the rest of the program would have produced.  The claim's universal
form — that every framework call is so wrapped — is refuted separately:
event.getEntry's status is never checked. -/
theorem CHECK_false_logs_and_returns_1 (argText : String) (k : Nat × List Ev) :
    CHECK argText false k = (1, [Ev.errFail argText]) := rfl

/-- Witness for claim C1 at a concrete two-event environment. -/
theorem bounded_loop_witness :
    AllOk envBase ∧ ((runMain envBase).fst = 0 ∧
      progressLog (runMain envBase).snd = List.range (min envBase.nEvents 20) ∧
      (0 < min envBase.nEvents 20 →
        (progressLog (runMain envBase).snd).getLast? =
          some (min envBase.nEvents 20 - 1))) :=
  ⟨by decide, runMain_allOk_progress envBase (by decide)⟩

/-- Witness for claim C4 at a concrete two-event environment. -/
theorem store_clear_witness :
    AllOk envBase ∧ ((runMain envBase).fst = 0 ∧
      clearLog (runMain envBase).snd =
        List.replicate (min envBase.nEvents 20) recordedKeys) :=
  ⟨by decide, runMain_allOk_clears envBase (by decide)⟩

/-- Witness for claim C3 at a concrete two-muon event. -/
theorem calibration_witness :
    (∀ i < (envBase.muonPts 0).length,
      envBase.calibOk 0 i = true ∧ envBase.effOk 0 i = true) ∧
    (∃ h' d, iterML envBase 0 = Except.ok (h', d) ∧
      h'.origMuons = envBase.muonPts 0 ∧
      ∀ i < (envBase.muonPts 0).length,
        readOrig h' i = (envBase.muonPts 0).getD i 0 ∧
        readCopy h' i = (envBase.muonPts 0).getD i 0 + envBase.calibOffset) :=
  ⟨by decide, calibration_mutates_copy_not_original envBase 0 (by decide)⟩

/-- Witness for claim C5 with the EventInfo retrieval failing at entry 0. -/
theorem retrieval_failure_witness :
    GlobalOk envEI ∧ 0 < min envEI.nEvents 20 ∧ envEI.evtInfoOk 0 = false ∧
    ((runMain envEI).fst = 1 ∧ (progressLog (runMain envEI).snd).length = 0) :=
  ⟨by decide, by decide, rfl,
   (retrieval_failure_progress_lines envEI 0 (by decide) (by decide) (by decide)).1 rfl⟩

/-- Witness for claim C6 with the calibration tool failing to initialize. -/
theorem tool_init_witness :
    envCI.calibInitOk = false ∧ ((runMain envCI).fst = 1 ∧
      (∀ key entry, Ev.retrieveCall key entry ∉ (runMain envCI).snd) ∧
      (∀ entry, Ev.getEntryCall entry ∉ (runMain envCI).snd)) :=
  ⟨rfl, tool_init_failure_stops_before_loop envCI (by decide) rfl rfl rfl (Or.inl rfl)⟩

/-- Witness for claim C7 with argc = 1. -/
theorem usage_witness :
    envNoArg.argc = 1 ∧ (runMain envNoArg = (1, [Ev.errNoFile, Ev.usageMsg]) ∧
      Ev.fileOpenCall ∉ (runMain envNoArg).snd) :=
  ⟨rfl, no_argument_prints_usage_and_exits_1 envNoArg rfl⟩

/-- Witness for claim C8: muon 0 of the base environment is accepted at calibrated pt 7. -/
theorem eff_gating_witness :
    Ev.effCall 0 7 ∈ muonDelta (iterML envBase 0) ∧
    (envBase.accept 7 = true ∧
      (7 : Int) = (envBase.muonPts 0).getD 0 0 + envBase.calibOffset ∧
      List.Sublist [Ev.calibCall 0, Ev.acceptCall 0 7, Ev.effCall 0 7]
        (muonDelta (iterML envBase 0))) :=
  ⟨by decide, (efficiency_only_for_accepted_calibrated envBase 0 0 7).2 (by decide)⟩

/-- Witness for claim C9 at a concrete two-muon event. -/
theorem copy_size_witness :
    (shallowCopyContainer (envBase.muonPts 0)).copySize = (envBase.muonPts 0).length ∧
    ∀ h' d, iterML envBase 0 = Except.ok (h', d) →
      h'.copySize = (envBase.muonPts 0).length :=
  shallow_copy_preserves_size envBase 0

/-- Witness for claim C10 with the second record call failing at entry 0. -/
theorem skip_clear_witness :
    GlobalOk envR2 ∧ 0 < min envR2.nEvents 20 ∧ FailsAt envR2 0 ∧
    ((runMain envR2).fst = 1 ∧
      clearLog (runMain envR2).snd = List.replicate 0 recordedKeys) :=
  ⟨by decide, by decide, by decide,
   checked_failure_skips_clear envR2 0 (by decide) (by decide) (by decide) (by decide)⟩

/-- Counterexample to claim C2 as stated: event.getEntry (line 91) is a
framework call whose failure status the program discards; in a run where
it reports failure the call occurs, yet the program exits with status 0. -/
theorem getEntry_failure_not_aborting :
    envGE.getEntryOk 0 = false ∧ (runMain envGE).fst = 0 ∧
    Ev.getEntryCall 0 ∈ (runMain envGE).snd := by decide

/-- Counterexample to claim C5 as stated: when the muon-container
retrieval fails on iteration 1, the program exits with status 1 having
emitted one complete progress line, not 1 - 1 = 0, because the progress
line is printed before that retrieval. -/
theorem muons_retrieval_failure_one_progress_line :
    envMU.muonsOk 0 = false ∧ (runMain envMU).fst = 1 ∧
    (progressLog (runMain envMU).snd).length = 1 := by decide

end CPTut
